import Mathlib

/-!
Verification of the field-gathering kernels of
`fbpic/particles/gathering/threading_methods.py` (linear and cubic order,
electromagnetic and envelope variants), as a shallow embedding over exact
real/complex arithmetic.  Grids are modelled as total functions on integer
indices, matching the unchecked array indexing of the compiled kernels;
particle arrays are functions from particle index to value.
-/

open Complex

noncomputable section

/-- Grid geometry scalars passed to every kernel:
`invdz, zmin, Nz, invdr, rmin, Nr`. -/
structure GridGeom where
  invdz : ℝ
  zmin : ℝ
  Nz : ℤ
  invdr : ℝ
  rmin : ℝ
  Nr : ℤ

/-- A per-mode field grid: complex values indexed by (axial cell, radial cell).
Total on ℤ × ℤ, modelling the unchecked indexing of the jitted kernels. -/
def Grid : Type := ℤ → ℤ → ℂ

/-- Cylindrical conversion of the particle position, as in every kernel:
`rj = sqrt(xj**2 + yj**2); if rj != 0: cos = xj/rj; sin = yj/rj
else: cos = 1; sin = 0`. -/
def cossin (xj yj : ℝ) : ℝ × ℝ :=
  let rj := Real.sqrt (xj ^ 2 + yj ^ 2)
  if rj ≠ 0 then (xj * (1 / rj), yj * (1 / rj)) else (1, 0)

/-- Position of the particle in the cell unit along r:
`r_cell = invdr*(rj - rmin) - 0.5`. -/
def rCell (geom : GridGeom) (rj : ℝ) : ℝ :=
  geom.invdr * (rj - geom.rmin) - 0.5

/-- Position of the particle in the cell unit along z:
`z_cell = invdz*(zj - zmin) - 0.5`. -/
def zCell (geom : GridGeom) (zj : ℝ) : ℝ :=
  geom.invdz * (zj - geom.zmin) - 0.5

/-- The linear-order stencil of one particle: indices of the lower and upper
cell along each axis, the linear weights, and the below-axis guard weight. -/
structure LinStencil where
  irLower : ℤ
  irUpper : ℤ
  izLower : ℤ
  izUpper : ℤ
  SrLower : ℝ
  SrUpper : ℝ
  SzLower : ℝ
  SzUpper : ℝ
  SrGuard : ℝ

/-- The linear stencil before any boundary treatment, from the source:
`ir_lower = floor(r_cell); ir_upper = ir_lower + 1` (same in z),
`Sr_lower = ir_upper - r_cell; Sr_upper = r_cell - ir_lower` (same in z),
and `Sr_guard = 0`. -/
def linearStencil (r_cell z_cell : ℝ) : LinStencil :=
  let ir_lower : ℤ := ⌊r_cell⌋
  let ir_upper : ℤ := ir_lower + 1
  let iz_lower : ℤ := ⌊z_cell⌋
  let iz_upper : ℤ := iz_lower + 1
  { irLower := ir_lower
    irUpper := ir_upper
    izLower := iz_lower
    izUpper := iz_upper
    SrLower := (ir_upper : ℝ) - r_cell
    SrUpper := r_cell - (ir_lower : ℝ)
    SzLower := (iz_upper : ℝ) - z_cell
    SzUpper := z_cell - (iz_lower : ℝ)
    SrGuard := 0 }

/-- The axial boundary treatment applied to each axial index separately:
`if iz < 0: iz += Nz` then `if iz > Nz-1: iz -= Nz`. -/
def wrapZ (Nz iz : ℤ) : ℤ :=
  let iz1 := if iz < 0 then iz + Nz else iz
  if iz1 > Nz - 1 then iz1 - Nz else iz1

/-- The boundary treatment of the linear stencil, from the source:
guard cells in lower r (`if ir_lower < 0: Sr_guard = Sr_lower;
Sr_lower = 0.; ir_lower = 0`), absorbing in upper r (`if ir_lower > Nr-1:
ir_lower = Nr-1`, same for `ir_upper`), and the periodic shift in z. -/
def linearBC (Nz Nr : ℤ) (s : LinStencil) : LinStencil :=
  let SrGuard := if s.irLower < 0 then s.SrLower else s.SrGuard
  let SrLower := if s.irLower < 0 then (0 : ℝ) else s.SrLower
  let irLower0 : ℤ := if s.irLower < 0 then 0 else s.irLower
  let irLower := if irLower0 > Nr - 1 then Nr - 1 else irLower0
  let irUpper := if s.irUpper > Nr - 1 then Nr - 1 else s.irUpper
  { irLower := irLower
    irUpper := irUpper
    izLower := wrapZ Nz s.izLower
    izUpper := wrapZ Nz s.izUpper
    SrLower := SrLower
    SrUpper := s.SrUpper
    SzLower := s.SzLower
    SzUpper := s.SzUpper
    SrGuard := SrGuard }

/-- Modelled from the spec: the source imports `add_linear_gather_for_mode`
from `fbpic/particles/gathering/inline_functions.py`, a file that is not
among the sources here.  Per the spec, the mode accumulator computes
"complex running sum += phase_factor × Σ(weight_point × grid_value_at_point)"
over the stencil points, and the below-axis guard weight "is computed then
discarded": the guard weights that the source passes contribute nothing.
The source keeps the running sums `Fr, Ft, Fz` and the particle output
arrays real, so the real part of the per-mode complex contribution is what
accumulates.  The mode index `m` is passed by the source but plays no role
beyond the phase factor supplied by the caller. -/
def addLinearGatherForMode (_m : ℤ) (F : ℝ × ℝ × ℝ) (exptheta : ℂ)
    (Er Et Ez : Grid) (s : LinStencil) : ℝ × ℝ × ℝ :=
  let S_ll := s.SzLower * s.SrLower
  let S_lu := s.SzLower * s.SrUpper
  let S_ul := s.SzUpper * s.SrLower
  let S_uu := s.SzUpper * s.SrUpper
  let contrib : Grid → ℂ := fun G =>
    (S_ll : ℂ) * G s.izLower s.irLower + (S_lu : ℂ) * G s.izLower s.irUpper
      + (S_ul : ℂ) * G s.izUpper s.irLower + (S_uu : ℂ) * G s.izUpper s.irUpper
  (F.1 + (exptheta * contrib Er).re,
   F.2.1 + (exptheta * contrib Et).re,
   F.2.2 + (exptheta * contrib Ez).re)

/-- The twelve per-mode field grids of the electromagnetic gather. -/
structure EBGrids where
  Er0 : Grid
  Et0 : Grid
  Ez0 : Grid
  Er1 : Grid
  Et1 : Grid
  Ez1 : Grid
  Br0 : Grid
  Bt0 : Grid
  Bz0 : Grid
  Br1 : Grid
  Bt1 : Grid
  Bz1 : Grid

/-- The six per-particle outputs of the electromagnetic gather. -/
structure EBOut where
  Ex : ℝ
  Ey : ℝ
  Ez : ℝ
  Bx : ℝ
  By : ℝ
  Bz : ℝ

/-- The adjusted linear stencil of one particle, exactly as computed by the
body of `gather_field_numba_linear` before the accumulation. -/
def linearStencilOf (geom : GridGeom) (xj yj zj : ℝ) : LinStencil :=
  linearBC geom.Nz geom.Nr
    (linearStencil (rCell geom (Real.sqrt (xj ^ 2 + yj ^ 2))) (zCell geom zj))

/-- The loop body of `gather_field_numba_linear` for one particle:
cylindrical conversion, linear stencil with boundary treatment, accumulation
of E and B over modes 0 and 1, and conversion to Cartesian coordinates. -/
def gatherFieldLinearOne (geom : GridGeom) (g : EBGrids) (xj yj zj : ℝ) :
    EBOut :=
  let cs := cossin xj yj
  let exptheta_m0 : ℂ := 1
  let exptheta_m1 : ℂ := (cs.1 : ℂ) - (cs.2 : ℂ) * I
  let s := linearStencilOf geom xj yj zj
  let E0 := addLinearGatherForMode 0 (0, 0, 0) exptheta_m0 g.Er0 g.Et0 g.Ez0 s
  let E := addLinearGatherForMode 1 E0 exptheta_m1 g.Er1 g.Et1 g.Ez1 s
  let B0 := addLinearGatherForMode 0 (0, 0, 0) exptheta_m0 g.Br0 g.Bt0 g.Bz0 s
  let B := addLinearGatherForMode 1 B0 exptheta_m1 g.Br1 g.Bt1 g.Bz1 s
  { Ex := cs.1 * E.1 - cs.2 * E.2.1
    Ey := cs.2 * E.1 + cs.1 * E.2.1
    Ez := E.2.2
    Bx := cs.1 * B.1 - cs.2 * B.2.1
    By := cs.2 * B.1 + cs.1 * B.2.1
    Bz := B.2.2 }

/-- The per-mode complex factor of the envelope gathers:
`exptheta_m = (cos - 1j*sin)**abs(m)`, conjugated when `m < 0`
(repeated multiplication instead of a negative complex exponent). -/
def phaseFactor (c s : ℝ) (m : ℤ) : ℂ :=
  let e := ((c : ℂ) - (s : ℂ) * I) ^ m.natAbs
  if m < 0 then (starRingEnd ℂ) e else e

/-- Modelled from the spec: the source imports
`add_linear_envelope_gather_for_mode` from
`fbpic/particles/gathering/inline_functions.py`, which is not among the
sources here.  Per the spec, the mode accumulator computes "complex running
sum += phase_factor × Σ(weight_point × grid_value_at_point)" over the
stencil points, and the below-axis guard weight "is computed then
discarded": the guard weights that the source passes contribute nothing.
The running sum stays complex for the envelope amplitude.  The mode index
`m` is passed by the source but plays no role beyond the phase factor. -/
def addLinearEnvelopeGatherForMode (_m : ℤ) (F : ℂ) (exptheta : ℂ)
    (A : Grid) (s : LinStencil) : ℂ :=
  let S_ll := s.SzLower * s.SrLower
  let S_lu := s.SzLower * s.SrUpper
  let S_ul := s.SzUpper * s.SrLower
  let S_uu := s.SzUpper * s.SrUpper
  F + exptheta *
    ((S_ll : ℂ) * A s.izLower s.irLower + (S_lu : ℂ) * A s.izLower s.irUpper
      + (S_ul : ℂ) * A s.izUpper s.irLower + (S_uu : ℂ) * A s.izUpper s.irUpper)

/-- One iteration of the mode loop of `gather_envelope_field_numba_linear`:
accumulates the amplitude, and the three gradient components only when
`gather_gradient` is set. -/
def envelopeLinearStep (gradient : Bool) (a gradR gradT gradZ : ℤ → Grid)
    (c s : ℝ) (st : LinStencil) (acc : ℂ × ℂ × ℂ × ℂ) (m : ℤ) :
    ℂ × ℂ × ℂ × ℂ :=
  let exptheta := phaseFactor c s m
  let F := addLinearEnvelopeGatherForMode m acc.1 exptheta (a m) st
  if gradient then
    (F, addLinearEnvelopeGatherForMode m acc.2.1 exptheta (gradR m) st,
        addLinearEnvelopeGatherForMode m acc.2.2.1 exptheta (gradT m) st,
        addLinearEnvelopeGatherForMode m acc.2.2.2 exptheta (gradZ m) st)
  else
    (F, acc.2.1, acc.2.2.1, acc.2.2.2)

/-- The four per-particle outputs of the envelope gather: the intensity
`a2` and the Cartesian gradient-of-intensity components. -/
structure EnvOut where
  a2 : ℝ
  gx : ℝ
  gy : ℝ
  gz : ℝ

/-- The loop body of `gather_envelope_field_numba_linear` for one particle:
cylindrical conversion, adjusted linear stencil, accumulation over the
caller-supplied mode list, Cartesian conversion of the gradient, conversion
of the complex quantities to the real intensity and gradient of intensity,
and the write with the overwrite/average output policy. -/
def gatherEnvelopeLinearOne (geom : GridGeom) (a gradR gradT gradZ : ℤ → Grid)
    (ms : List ℤ) (xj yj zj : ℝ) (a2old gxold gyold gzold : ℝ)
    (gradient average : Bool) : EnvOut :=
  let cs := cossin xj yj
  let st := linearStencilOf geom xj yj zj
  let acc := ms.foldl (envelopeLinearStep gradient a gradR gradT gradZ
    cs.1 cs.2 st) (0, 0, 0, 0)
  let F := acc.1
  let Fx := 2 * (((cs.1 : ℂ) * acc.2.1 - (cs.2 : ℂ) * acc.2.2.1)
    * (starRingEnd ℂ) F).re
  let Fy := 2 * (((cs.2 : ℂ) * acc.2.1 + (cs.1 : ℂ) * acc.2.2.1)
    * (starRingEnd ℂ) F).re
  let Fzr := 2 * (acc.2.2.2 * (starRingEnd ℂ) F).re
  let F2 := F * (starRingEnd ℂ) F
  { a2 := if average then ((0.5 : ℂ) * ((a2old : ℂ) + F2)).re else F2.re
    gx := if gradient then Fx else gxold
    gy := if gradient then Fy else gyold
    gz := if gradient then Fzr else gzold }

/-- One of the four cubic B-spline weights, exactly as in the source:
`S[0] = -1/6 (u-2)^3`, `S[1] = 1/6 (3(u-1)^3 - 6(u-1)^2 + 4)`,
`S[2] = 1/6 (3(2-u)^3 - 6(2-u)^2 + 4)`, `S[3] = -1/6 (1-u)^3`. -/
def cubicS (u : ℝ) : Fin 4 → ℝ := fun k =>
  match k with
  | 0 => -1 / 6 * (u - 2) ^ 3
  | 1 => 1 / 6 * (3 * (u - 1) ^ 3 - 6 * (u - 1) ^ 2 + 4)
  | 2 => 1 / 6 * (3 * (2 - u) ^ 3 - 6 * (2 - u) ^ 2 + 4)
  | 3 => -1 / 6 * (1 - u) ^ 3

/-- The lowest index of the cubic stencil along one axis:
`int64(floor(c)) - 1`, with no further adjustment in the kernel. -/
def cubicLowest (c : ℝ) : ℤ := ⌊c⌋ - 1

/-- Modelled from the spec: the source imports `add_cubic_gather_for_mode`
from `fbpic/particles/gathering/inline_functions.py`, which is not among
the sources here.  Per the spec, the mode accumulator computes "complex
running sum += phase_factor × Σ(weight_point × grid_value_at_point)" over
the 4×4 cubic stencil; at the outer radial edge indices are clamped to
`Nr-1` (absorbing), while below the axis and along z the grids come with
pre-populated guard cells and no index adjustment is performed (the `Nz`
argument of the source signature is therefore unused here).  The source
keeps the running sums real, so the real part of the per-mode complex
contribution is what accumulates. -/
def addCubicGatherForMode (_m : ℤ) (F : ℝ × ℝ × ℝ) (exptheta : ℂ)
    (Er Et Ez : Grid) (ir_lowest iz_lowest : ℤ) (Sr Sz : Fin 4 → ℝ)
    (Nr _Nz : ℤ) : ℝ × ℝ × ℝ :=
  let contrib : Grid → ℂ := fun G =>
    ∑ k : Fin 4, ∑ l : Fin 4,
      ((Sz k * Sr l : ℝ) : ℂ) * G (iz_lowest + (k : ℤ)) (min (ir_lowest + (l : ℤ)) (Nr - 1))
  (F.1 + (exptheta * contrib Er).re,
   F.2.1 + (exptheta * contrib Et).re,
   F.2.2 + (exptheta * contrib Ez).re)

/-- Modelled from the spec: the complex (envelope) counterpart of
`addCubicGatherForMode`, standing in for the absent
`add_cubic_envelope_gather_for_mode` of `inline_functions.py`. -/
def addCubicEnvelopeGatherForMode (_m : ℤ) (F : ℂ) (exptheta : ℂ)
    (A : Grid) (ir_lowest iz_lowest : ℤ) (Sr Sz : Fin 4 → ℝ)
    (Nr _Nz : ℤ) : ℂ :=
  F + exptheta *
    ∑ k : Fin 4, ∑ l : Fin 4,
      ((Sz k * Sr l : ℝ) : ℂ) * A (iz_lowest + (k : ℤ)) (min (ir_lowest + (l : ℤ)) (Nr - 1))

/-- The loop body of `gather_field_numba_cubic` for one particle:
cylindrical conversion, cubic shape factors from the local coordinates,
accumulation of E and B over modes 0 and 1, Cartesian conversion. -/
def gatherFieldCubicOne (geom : GridGeom) (g : EBGrids) (xj yj zj : ℝ) :
    EBOut :=
  let cs := cossin xj yj
  let exptheta_m0 : ℂ := 1
  let exptheta_m1 : ℂ := (cs.1 : ℂ) - (cs.2 : ℂ) * I
  let r_cell := rCell geom (Real.sqrt (xj ^ 2 + yj ^ 2))
  let z_cell := zCell geom zj
  let ir_lowest := cubicLowest r_cell
  let Sr := cubicS (r_cell - (ir_lowest : ℝ))
  let iz_lowest := cubicLowest z_cell
  let Sz := cubicS (z_cell - (iz_lowest : ℝ))
  let E0 := addCubicGatherForMode 0 (0, 0, 0) exptheta_m0 g.Er0 g.Et0 g.Ez0
    ir_lowest iz_lowest Sr Sz geom.Nr geom.Nz
  let E := addCubicGatherForMode 1 E0 exptheta_m1 g.Er1 g.Et1 g.Ez1
    ir_lowest iz_lowest Sr Sz geom.Nr geom.Nz
  let B0 := addCubicGatherForMode 0 (0, 0, 0) exptheta_m0 g.Br0 g.Bt0 g.Bz0
    ir_lowest iz_lowest Sr Sz geom.Nr geom.Nz
  let B := addCubicGatherForMode 1 B0 exptheta_m1 g.Br1 g.Bt1 g.Bz1
    ir_lowest iz_lowest Sr Sz geom.Nr geom.Nz
  { Ex := cs.1 * E.1 - cs.2 * E.2.1
    Ey := cs.2 * E.1 + cs.1 * E.2.1
    Ez := E.2.2
    Bx := cs.1 * B.1 - cs.2 * B.2.1
    By := cs.2 * B.1 + cs.1 * B.2.1
    Bz := B.2.2 }

/-- One iteration of the mode loop of `gather_envelope_field_numba_cubic`. -/
def envelopeCubicStep (gradient : Bool) (a gradR gradT gradZ : ℤ → Grid)
    (c s : ℝ) (ir_lowest iz_lowest : ℤ) (Sr Sz : Fin 4 → ℝ) (Nr Nz : ℤ)
    (acc : ℂ × ℂ × ℂ × ℂ) (m : ℤ) : ℂ × ℂ × ℂ × ℂ :=
  let exptheta := phaseFactor c s m
  let F := addCubicEnvelopeGatherForMode m acc.1 exptheta (a m)
    ir_lowest iz_lowest Sr Sz Nr Nz
  if gradient then
    (F, addCubicEnvelopeGatherForMode m acc.2.1 exptheta (gradR m)
          ir_lowest iz_lowest Sr Sz Nr Nz,
        addCubicEnvelopeGatherForMode m acc.2.2.1 exptheta (gradT m)
          ir_lowest iz_lowest Sr Sz Nr Nz,
        addCubicEnvelopeGatherForMode m acc.2.2.2 exptheta (gradZ m)
          ir_lowest iz_lowest Sr Sz Nr Nz)
  else
    (F, acc.2.1, acc.2.2.1, acc.2.2.2)

/-- The loop body of `gather_envelope_field_numba_cubic` for one particle. -/
def gatherEnvelopeCubicOne (geom : GridGeom) (a gradR gradT gradZ : ℤ → Grid)
    (ms : List ℤ) (xj yj zj : ℝ) (a2old gxold gyold gzold : ℝ)
    (gradient average : Bool) : EnvOut :=
  let cs := cossin xj yj
  let r_cell := rCell geom (Real.sqrt (xj ^ 2 + yj ^ 2))
  let z_cell := zCell geom zj
  let ir_lowest := cubicLowest r_cell
  let Sr := cubicS (r_cell - (ir_lowest : ℝ))
  let iz_lowest := cubicLowest z_cell
  let Sz := cubicS (z_cell - (iz_lowest : ℝ))
  let acc := ms.foldl (envelopeCubicStep gradient a gradR gradT gradZ
    cs.1 cs.2 ir_lowest iz_lowest Sr Sz geom.Nr geom.Nz) (0, 0, 0, 0)
  let F := acc.1
  let Fx := 2 * (((cs.1 : ℂ) * acc.2.1 - (cs.2 : ℂ) * acc.2.2.1)
    * (starRingEnd ℂ) F).re
  let Fy := 2 * (((cs.2 : ℂ) * acc.2.1 + (cs.1 : ℂ) * acc.2.2.1)
    * (starRingEnd ℂ) F).re
  let Fzr := 2 * (acc.2.2.2 * (starRingEnd ℂ) F).re
  let F2 := F * (starRingEnd ℂ) F
  { a2 := if average then ((0.5 : ℂ) * ((a2old : ℂ) + F2)).re else F2.re
    gx := if gradient then Fx else gxold
    gy := if gradient then Fy else gyold
    gz := if gradient then Fzr else gzold }

/-- The inner particle loop of the chunked cubic kernels:
`for i in range(lo, lo + n): out[i] = f(i)`, processed in increasing order
of `i`.  The per-particle value `f i` is a pure function of the particle,
matching the loop body. -/
def processRange (f out : ℕ → EBOut) (lo : ℕ) : ℕ → (ℕ → EBOut)
  | 0 => out
  | n + 1 => Function.update (processRange f out lo n) (lo + n) (f (lo + n))

/-- The chunk loop of the cubic kernels:
`for nt in range(nthreads): for i in range(c[nt], c[nt+1]): ...`
over the chunk-boundary list `c` of length `nthreads + 1`. -/
def runChunks (f : ℕ → EBOut) : List ℕ → (ℕ → EBOut) → (ℕ → EBOut)
  | b0 :: b1 :: rest, out =>
      runChunks f (b1 :: rest) (processRange f out b0 (b1 - b0))
  | _, out => out

/-- `gather_field_numba_cubic` at the array level: the particle range is
partitioned by the chunk-boundary array `bnds` (`ptcl_chunk_indices`), and
each chunk is processed by the per-particle loop body. -/
def gatherFieldCubic (geom : GridGeom) (g : EBGrids) (xs ys zs : ℕ → ℝ)
    (bnds : List ℕ) (out : ℕ → EBOut) : ℕ → EBOut :=
  runChunks (fun i => gatherFieldCubicOne geom g (xs i) (ys i) (zs i)) bnds out

/-- The running amplitude of the envelope mode loop in isolation: the fold
of the per-mode linear accumulator over the mode list, starting from 0.
Applied to the amplitude grids it gives `F`; applied to a gradient
component's grids it gives that accumulated component. -/
def envAmplitude (G : ℤ → Grid) (c s : ℝ) (st : LinStencil) (ms : List ℤ) :
    ℂ :=
  ms.foldl
    (fun F m => addLinearEnvelopeGatherForMode m F (phaseFactor c s m) (G m) st) 0

/-- The E (or B) cylindrical vector accumulated over modes 0 and 1 by the
linear kernel, in isolation. -/
def linearVec (R0 T0 Z0 R1 T1 Z1 : Grid) (c s : ℝ) (st : LinStencil) :
    ℝ × ℝ × ℝ :=
  addLinearGatherForMode 1
    (addLinearGatherForMode 0 (0, 0, 0) 1 R0 T0 Z0 st)
    ((c : ℂ) - (s : ℂ) * I) R1 T1 Z1 st

/-- A concrete geometry with Nz = 2 used to exercise the axial boundary
treatment far from the domain. -/
def geomWide : GridGeom :=
  { invdz := 1, zmin := 0, Nz := 2, invdr := 1, rmin := -1/2, Nr := 4 }

/-- Two grids agree on the four points of an adjusted linear stencil. -/
def agreeOnLin (G G' : Grid) (st : LinStencil) : Prop :=
  ∀ iz ir, (iz = st.izLower ∨ iz = st.izUpper) →
    (ir = st.irLower ∨ ir = st.irUpper) → G iz ir = G' iz ir

/-- The all-zero electromagnetic grids. -/
def ebZero : EBGrids :=
  { Er0 := fun _ _ => 0, Et0 := fun _ _ => 0, Ez0 := fun _ _ => 0
    Er1 := fun _ _ => 0, Et1 := fun _ _ => 0, Ez1 := fun _ _ => 0
    Br0 := fun _ _ => 0, Bt0 := fun _ _ => 0, Bz0 := fun _ _ => 0
    Br1 := fun _ _ => 0, Bt1 := fun _ _ => 0, Bz1 := fun _ _ => 0 }

/-- Grids whose mode-0 radial electric component marks the axial row 2 (an
out-of-range row for Nz = 2), all other components zero. -/
def gridsRow2 : EBGrids :=
  { ebZero with Er0 := fun iz _ => if iz = 2 then 1 else 0 }

/-- The all-zero output record. -/
def outZero : EBOut :=
  { Ex := 0, Ey := 0, Ez := 0, Bx := 0, By := 0, Bz := 0 }

/-- The E (or B) cylindrical vector accumulated over modes 0 and 1 by the
cubic kernel, in isolation. -/
def cubicVec (R0 T0 Z0 R1 T1 Z1 : Grid) (c s : ℝ)
    (irl izl : ℤ) (Sr Sz : Fin 4 → ℝ) (Nr Nz : ℤ) : ℝ × ℝ × ℝ :=
  addCubicGatherForMode 1
    (addCubicGatherForMode 0 (0, 0, 0) 1 R0 T0 Z0 irl izl Sr Sz Nr Nz)
    ((c : ℂ) - (s : ℂ) * I) R1 T1 Z1 irl izl Sr Sz Nr Nz

/-- The concrete scenario geometry: unit cells with the first cell center
at the origin along both axes. -/
def geomS : GridGeom :=
  { invdz := 1, zmin := -1/2, Nz := 4, invdr := 1, rmin := -1/2, Nr := 4 }

/-- A constant amplitude grid of value sqrt 3 on every mode, so that the
gathered amplitude is sqrt 3 and the raw intensity is 3. -/
def aS : ℤ → Grid := fun _ _ _ => ((Real.sqrt 3 : ℝ) : ℂ)

/-- The all-zero mode-grid family. -/
def gzZero : ℤ → Grid := fun _ _ _ => 0

end

/-- C3: at Cartesian radius exactly 0 the angular factors are fixed to
(cos, sin) = (1, 0) by convention; at nonzero radius they are
(x/r, y/r).  All four kernels use this one conversion (`cossin`). -/
theorem claim3_axis_angle_convention (x y : ℝ) :
    cossin x y =
      if Real.sqrt (x ^ 2 + y ^ 2) = 0 then (1, 0)
      else (x / Real.sqrt (x ^ 2 + y ^ 2), y / Real.sqrt (x ^ 2 + y ^ 2)) := by
  by_cases h : Real.sqrt (x ^ 2 + y ^ 2) = 0
  · simp [cossin, h]
  · simp [cossin, h, div_eq_mul_inv, one_div]

/-- C6: the interpolation weights along one axis sum to 1 in exact
arithmetic before any boundary clamping: the two linear weights along r and
along z, and the four cubic B-spline weights for any local coordinate. -/
theorem claim6_weights_sum_to_one :
    (∀ r_cell z_cell : ℝ,
      (linearStencil r_cell z_cell).SrLower
          + (linearStencil r_cell z_cell).SrUpper = 1 ∧
      (linearStencil r_cell z_cell).SzLower
          + (linearStencil r_cell z_cell).SzUpper = 1) ∧
    (∀ u : ℝ, cubicS u 0 + cubicS u 1 + cubicS u 2 + cubicS u 3 = 1) := by
  constructor
  · intro r z
    constructor <;> (simp only [linearStencil]; push_cast; ring)
  · intro u
    simp only [cubicS]
    ring

/-- C2: in the linear-order gather, when the radial lower stencil index
`floor(r_cell)` is negative, its weight is saved into the guard slot and
then contributes nothing to the accumulated field (the accumulator is
independent of the guard weight, so the point is dropped, not reflected),
the lower weight is zeroed, and the lower index is clamped to 0. -/
theorem claim2_below_axis_truncation (Nz Nr : ℤ) (hNr : 1 ≤ Nr)
    (r_cell z_cell : ℝ) (hneg : ⌊r_cell⌋ < 0) :
    (linearBC Nz Nr (linearStencil r_cell z_cell)).SrGuard
        = (linearStencil r_cell z_cell).SrLower ∧
    (linearBC Nz Nr (linearStencil r_cell z_cell)).SrLower = 0 ∧
    (linearBC Nz Nr (linearStencil r_cell z_cell)).irLower = 0 ∧
    (∀ (m : ℤ) (F : ℝ × ℝ × ℝ) (exptheta : ℂ) (Er Et Ez : Grid) (w : ℝ)
       (st : LinStencil),
      addLinearGatherForMode m F exptheta Er Et Ez { st with SrGuard := w }
        = addLinearGatherForMode m F exptheta Er Et Ez st) := by
  have h0 : ¬ ((0 : ℤ) > Nr - 1) := by omega
  refine ⟨?_, ?_, ?_, fun _ _ _ _ _ _ _ _ => rfl⟩ <;>
    simp [linearBC, linearStencil, hneg, h0]

/-- C2 witness: a concrete particle whose lower radial index is negative. -/
theorem claim2_below_axis_truncation_witness :
    (1 : ℤ) ≤ 4 ∧ ⌊(-1/2 : ℝ)⌋ < 0 ∧
    (linearBC 4 4 (linearStencil (-1/2) 0)).SrLower = 0 :=
  ⟨by norm_num, by norm_num,
    (claim2_below_axis_truncation 4 4 (by norm_num) (-1/2) 0 (by norm_num)).2.1⟩

/-- C4 counterexample: at the concrete particle z = 4.5 on the axis with
Nz = 2, the original lower axial index is 4, but the index after the
boundary treatment is 2, which is neither 4 mod 2 = 0 nor inside
[0, Nz-1]. -/
theorem claim4_counterexample :
    ⌊zCell geomWide 4.5⌋ = 4 ∧
    (linearStencilOf geomWide 0 0 4.5).izLower = 2 ∧
    (4 : ℤ) % 2 = 0 ∧
    ¬ ((linearStencilOf geomWide 0 0 4.5).izLower ≤ geomWide.Nz - 1) := by
  have hz : zCell geomWide 4.5 = 4 := by
    simp [zCell, geomWide]; norm_num
  have hr : rCell geomWide (Real.sqrt ((0:ℝ) ^ 2 + 0 ^ 2)) = 0 := by
    simp [rCell, geomWide]; norm_num
  have hfz : ⌊zCell geomWide 4.5⌋ = 4 := by rw [hz]; norm_num
  have hst : (linearStencilOf geomWide 0 0 4.5).izLower = 2 := by
    simp only [linearStencilOf, linearBC, linearStencil, hr, hfz, wrapZ]
    norm_num [geomWide]
  exact ⟨hfz, hst, by norm_num, by rw [hst]; simp [geomWide]⟩

/-- C4 (amended): the single conditional shift of the axial boundary
treatment equals reduction modulo Nz, with a result inside [0, Nz-1],
exactly when the original index lies in [-Nz, 2Nz-1]; and the cubic-order
kernel performs no axial wraparound: its lowest axial index is
`floor(z_cell) - 1` unchanged, and the cubic accumulator reads the grids
only at the four axial rows starting there (for any index value). -/
theorem claim4_axial_wrap (Nz iz : ℤ) (hNz : 1 ≤ Nz) (hlo : -Nz ≤ iz)
    (hhi : iz ≤ 2 * Nz - 1) :
    (wrapZ Nz iz = iz % Nz ∧ 0 ≤ wrapZ Nz iz ∧ wrapZ Nz iz ≤ Nz - 1) ∧
    (∀ c : ℝ, cubicLowest c = ⌊c⌋ - 1) ∧
    (∀ (m : ℤ) (F : ℝ × ℝ × ℝ) (exptheta : ℂ) (Er Et Ez Er' Et' Ez' : Grid)
       (irl izl : ℤ) (Sr Sz : Fin 4 → ℝ) (Nr Nz' : ℤ),
      (∀ iz' ir, izl ≤ iz' → iz' ≤ izl + 3 →
        Er iz' ir = Er' iz' ir ∧ Et iz' ir = Et' iz' ir ∧ Ez iz' ir = Ez' iz' ir) →
      addCubicGatherForMode m F exptheta Er Et Ez irl izl Sr Sz Nr Nz'
        = addCubicGatherForMode m F exptheta Er' Et' Ez' irl izl Sr Sz Nr Nz') := by
  refine ⟨?_, fun _ => rfl, ?_⟩
  · unfold wrapZ
    by_cases h1 : iz < 0
    · have h2 : ¬ (iz + Nz > Nz - 1) := by omega
      simp only [if_pos h1, if_neg h2]
      have hmod : (iz + Nz) % Nz = iz + Nz :=
        Int.emod_eq_of_lt (by omega) (by omega)
      have hsame : (iz + Nz) % Nz = iz % Nz := by
        have h := Int.add_mul_emod_self_left (a := iz) (b := Nz) (c := 1)
        rwa [mul_one] at h
      rw [← hsame, hmod]
      omega
    · simp only [if_neg h1]
      by_cases h2 : iz > Nz - 1
      · simp only [if_pos h2]
        have hmod : (iz - Nz) % Nz = iz - Nz :=
          Int.emod_eq_of_lt (by omega) (by omega)
        have hsame : (iz - Nz) % Nz = iz % Nz := by
          have h := Int.add_mul_emod_self_left (a := iz) (b := Nz) (c := -1)
          rwa [mul_neg_one, ← sub_eq_add_neg] at h
        rw [← hsame, hmod]
        omega
      · simp only [if_neg h2]
        have hmod : iz % Nz = iz := Int.emod_eq_of_lt (by omega) (by omega)
        rw [hmod]
        omega
  · intro m F exptheta Er Et Ez Er' Et' Ez' irl izl Sr Sz Nr Nz' hagree
    have hG : ∀ (G G' : Grid),
        (∀ iz' ir, izl ≤ iz' → iz' ≤ izl + 3 → G iz' ir = G' iz' ir) →
        (∑ k : Fin 4, ∑ l : Fin 4,
          ((Sz k * Sr l : ℝ) : ℂ) * G (izl + (k : ℤ)) (min (irl + (l : ℤ)) (Nr - 1)))
        = ∑ k : Fin 4, ∑ l : Fin 4,
          ((Sz k * Sr l : ℝ) : ℂ) * G' (izl + (k : ℤ)) (min (irl + (l : ℤ)) (Nr - 1)) := by
      intro G G' h
      refine Finset.sum_congr rfl fun k _ => Finset.sum_congr rfl fun l _ => ?_
      have hk3 : (k : ℤ) ≤ 3 := by exact_mod_cast Nat.lt_succ_iff.mp k.isLt
      have hk0 : (0 : ℤ) ≤ (k : ℤ) := Int.natCast_nonneg _
      rw [h _ _ (by omega) (by omega)]
    simp only [addCubicGatherForMode]
    rw [hG Er Er' (fun iz' ir h1 h2 => (hagree iz' ir h1 h2).1),
        hG Et Et' (fun iz' ir h1 h2 => (hagree iz' ir h1 h2).2.1),
        hG Ez Ez' (fun iz' ir h1 h2 => (hagree iz' ir h1 h2).2.2)]

/-- C4 witness: the wrap statement at the concrete index iz = 4 with
Nz = 4 (an index one box length above the domain). -/
theorem claim4_axial_wrap_witness :
    (1 : ℤ) ≤ 4 ∧ -(4 : ℤ) ≤ 4 ∧ (4 : ℤ) ≤ 2 * 4 - 1 ∧
    wrapZ 4 4 = 4 % 4 :=
  ⟨by norm_num, by norm_num, by norm_num,
    (claim4_axial_wrap 4 4 (by norm_num) (by norm_num) (by norm_num)).1.1⟩

/-- The linear accumulator reads a grid only at the four stencil points. -/
theorem addLinearGatherForMode_congr (m : ℤ) (F : ℝ × ℝ × ℝ) (exptheta : ℂ)
    (Er Et Ez Er' Et' Ez' : Grid) (st : LinStencil)
    (h1 : agreeOnLin Er Er' st) (h2 : agreeOnLin Et Et' st)
    (h3 : agreeOnLin Ez Ez' st) :
    addLinearGatherForMode m F exptheta Er Et Ez st
      = addLinearGatherForMode m F exptheta Er' Et' Ez' st := by
  simp only [addLinearGatherForMode]
  rw [h1 _ _ (Or.inl rfl) (Or.inl rfl), h1 _ _ (Or.inl rfl) (Or.inr rfl),
      h1 _ _ (Or.inr rfl) (Or.inl rfl), h1 _ _ (Or.inr rfl) (Or.inr rfl),
      h2 _ _ (Or.inl rfl) (Or.inl rfl), h2 _ _ (Or.inl rfl) (Or.inr rfl),
      h2 _ _ (Or.inr rfl) (Or.inl rfl), h2 _ _ (Or.inr rfl) (Or.inr rfl),
      h3 _ _ (Or.inl rfl) (Or.inl rfl), h3 _ _ (Or.inl rfl) (Or.inr rfl),
      h3 _ _ (Or.inr rfl) (Or.inl rfl), h3 _ _ (Or.inr rfl) (Or.inr rfl)]

/-- C5 (amended): the linear kernel performs no range check after the
single wraparound shift: whatever the adjusted indices are, in range or
not, the output is produced normally and depends on the grids only through
their values at those adjusted stencil points (the out-of-range value is
silently used to index the grid; nothing fatal is signalled). -/
theorem claim5_no_fatal_check (geom : GridGeom) (g g' : EBGrids)
    (xj yj zj : ℝ)
    (hEr0 : agreeOnLin g.Er0 g'.Er0 (linearStencilOf geom xj yj zj))
    (hEt0 : agreeOnLin g.Et0 g'.Et0 (linearStencilOf geom xj yj zj))
    (hEz0 : agreeOnLin g.Ez0 g'.Ez0 (linearStencilOf geom xj yj zj))
    (hEr1 : agreeOnLin g.Er1 g'.Er1 (linearStencilOf geom xj yj zj))
    (hEt1 : agreeOnLin g.Et1 g'.Et1 (linearStencilOf geom xj yj zj))
    (hEz1 : agreeOnLin g.Ez1 g'.Ez1 (linearStencilOf geom xj yj zj))
    (hBr0 : agreeOnLin g.Br0 g'.Br0 (linearStencilOf geom xj yj zj))
    (hBt0 : agreeOnLin g.Bt0 g'.Bt0 (linearStencilOf geom xj yj zj))
    (hBz0 : agreeOnLin g.Bz0 g'.Bz0 (linearStencilOf geom xj yj zj))
    (hBr1 : agreeOnLin g.Br1 g'.Br1 (linearStencilOf geom xj yj zj))
    (hBt1 : agreeOnLin g.Bt1 g'.Bt1 (linearStencilOf geom xj yj zj))
    (hBz1 : agreeOnLin g.Bz1 g'.Bz1 (linearStencilOf geom xj yj zj)) :
    gatherFieldLinearOne geom g xj yj zj
      = gatherFieldLinearOne geom g' xj yj zj := by
  simp only [gatherFieldLinearOne]
  rw [addLinearGatherForMode_congr 0 (0, 0, 0) 1 g.Er0 g.Et0 g.Ez0
        g'.Er0 g'.Et0 g'.Ez0 _ hEr0 hEt0 hEz0,
      addLinearGatherForMode_congr 1 _ _ g.Er1 g.Et1 g.Ez1
        g'.Er1 g'.Et1 g'.Ez1 _ hEr1 hEt1 hEz1,
      addLinearGatherForMode_congr 0 (0, 0, 0) 1 g.Br0 g.Bt0 g.Bz0
        g'.Br0 g'.Bt0 g'.Bz0 _ hBr0 hBt0 hBz0,
      addLinearGatherForMode_congr 1 _ _ g.Br1 g.Bt1 g.Bz1
        g'.Br1 g'.Bt1 g'.Bz1 _ hBr1 hBt1 hBz1]

/-- C5 witness: the amended theorem applied to identical concrete grids. -/
theorem claim5_no_fatal_check_witness :
    gatherFieldLinearOne geomWide ebZero 0 0 (4.5 : ℝ)
      = gatherFieldLinearOne geomWide ebZero 0 0 (4.5 : ℝ) :=
  claim5_no_fatal_check geomWide ebZero ebZero 0 0 4.5
    (fun _ _ _ _ => rfl) (fun _ _ _ _ => rfl) (fun _ _ _ _ => rfl)
    (fun _ _ _ _ => rfl) (fun _ _ _ _ => rfl) (fun _ _ _ _ => rfl)
    (fun _ _ _ _ => rfl) (fun _ _ _ _ => rfl) (fun _ _ _ _ => rfl)
    (fun _ _ _ _ => rfl) (fun _ _ _ _ => rfl) (fun _ _ _ _ => rfl)

/-- C5 counterexample: at Nz = 2 and the concrete particle z = 4.5 on the
axis, the adjusted axial index is 2, still outside [0, Nz-1]; no failure is
signalled and the kernel silently reads the grid at that out-of-range row:
its Ex output picks up the marker placed there. -/
theorem claim5_counterexample :
    (linearStencilOf geomWide 0 0 4.5).izLower = 2 ∧
    ¬ ((linearStencilOf geomWide 0 0 4.5).izLower ≤ geomWide.Nz - 1) ∧
    (gatherFieldLinearOne geomWide gridsRow2 0 0 4.5).Ex = 1 := by
  have hz : zCell geomWide 4.5 = 4 := by
    simp [zCell, geomWide]; norm_num
  have hr : rCell geomWide (Real.sqrt ((0:ℝ) ^ 2 + 0 ^ 2)) = 0 := by
    simp [rCell, geomWide]; norm_num
  have hfz : ⌊zCell geomWide 4.5⌋ = 4 := by rw [hz]; norm_num
  have hst : linearStencilOf geomWide 0 0 4.5 =
      { irLower := 0, irUpper := 1, izLower := 2, izUpper := 3,
        SrLower := 1, SrUpper := 0, SzLower := 1, SzUpper := 0,
        SrGuard := 0 } := by
    simp only [linearStencilOf, linearBC, linearStencil, hr, hfz, wrapZ]
    rw [hz]
    norm_num [geomWide]
  have hcs : cossin 0 0 = (1, 0) := by
    simp [cossin]
  refine ⟨by rw [hst], by rw [hst]; simp [geomWide], ?_⟩
  simp only [gatherFieldLinearOne, hst, hcs, addLinearGatherForMode,
    gridsRow2, ebZero]
  norm_num

/-- The inner particle loop writes `f i` at every index of its range and
leaves every other index unchanged. -/
theorem processRange_apply (f out : ℕ → EBOut) (lo : ℕ) :
    ∀ n i, processRange f out lo n i
      = if lo ≤ i ∧ i < lo + n then f i else out i := by
  intro n
  induction n with
  | zero =>
      intro i
      rw [processRange, if_neg (by omega)]
  | succ n ih =>
      intro i
      rw [processRange, Function.update_apply, ih]
      by_cases h : i = lo + n
      · subst h
        rw [if_pos rfl, if_pos (by omega)]
      · rw [if_neg h]
        split_ifs <;> first | rfl | omega

/-- Along a chain of ≤-related boundaries, the first is at most the last. -/
theorem chain_head_le_getLast (c : ℕ) (cs : List ℕ)
    (h : List.Chain' (· ≤ ·) (c :: cs)) :
    c ≤ (c :: cs).getLast (List.cons_ne_nil c cs) := by
  induction cs generalizing c with
  | nil => simp [List.getLast]
  | cons b bs ih =>
      have h1 : c ≤ b := (List.chain'_cons.mp h).1
      have h2 := (List.chain'_cons.mp h).2
      calc c ≤ b := h1
        _ ≤ _ := by
              have := ih b h2
              simpa [List.getLast_cons] using this

/-- The chunk loop writes `f i` for every index between the first and the
last boundary, and leaves every other index unchanged, whenever the
boundary list is monotone. -/
theorem runChunks_apply (f : ℕ → EBOut) :
    ∀ (bs : List ℕ) (b0 : ℕ) (out : ℕ → EBOut) (i : ℕ),
      List.Chain' (· ≤ ·) (b0 :: bs) →
      runChunks f (b0 :: bs) out i =
        if b0 ≤ i ∧ i < (b0 :: bs).getLast (List.cons_ne_nil b0 bs) then f i
        else out i := by
  intro bs
  induction bs with
  | nil =>
      intro b0 out i _
      rw [show runChunks f [b0] out = out from rfl, if_neg (by
        rintro ⟨h1, h2⟩
        simp [List.getLast] at h2
        omega)]
  | cons b1 rest ih =>
      intro b0 out i hch
      have hle : b0 ≤ b1 := (List.chain'_cons.mp hch).1
      have hch' : List.Chain' (· ≤ ·) (b1 :: rest) := (List.chain'_cons.mp hch).2
      have hbl : b1 ≤ (b1 :: rest).getLast (List.cons_ne_nil b1 rest) :=
        chain_head_le_getLast b1 rest hch'
      have hlast : (b0 :: b1 :: rest).getLast (List.cons_ne_nil b0 (b1 :: rest))
          = (b1 :: rest).getLast (List.cons_ne_nil b1 rest) := by
        simp [List.getLast_cons]
      rw [show runChunks f (b0 :: b1 :: rest) out
            = runChunks f (b1 :: rest) (processRange f out b0 (b1 - b0)) from rfl,
          ih b1 _ i hch', hlast, processRange_apply,
          show b0 + (b1 - b0) = b1 by omega]
      split_ifs <;> first | rfl | omega

/-- C1: the chunked cubic gather writes, for each particle index i inside
the partitioned range, exactly the per-particle value — a pure function of
that particle's position and the read-only grids — so its outputs agree
with a run using the single chunk [0, N), regardless of the chunk
boundaries and of the initial contents of the output arrays. -/
theorem claim1_chunk_invariance (geom : GridGeom) (g : EBGrids)
    (xs ys zs : ℕ → ℝ) (bnds : List ℕ) (N : ℕ) (out out' : ℕ → EBOut)
    (hh : bnds.head? = some 0) (hl : bnds.getLast? = some N)
    (hc : List.Chain' (· ≤ ·) bnds) (i : ℕ) (hi : i < N) :
    gatherFieldCubic geom g xs ys zs bnds out i
      = gatherFieldCubicOne geom g (xs i) (ys i) (zs i) ∧
    gatherFieldCubic geom g xs ys zs bnds out i
      = gatherFieldCubic geom g xs ys zs [0, N] out' i := by
  obtain ⟨bs, rfl⟩ : ∃ bs, bnds = 0 :: bs := by
    cases bnds with
    | nil => simp at hh
    | cons a bs =>
        simp only [List.head?_cons, Option.some.injEq] at hh
        exact ⟨bs, by rw [hh]⟩
  have hne : (0 :: bs) ≠ ([] : List ℕ) := List.cons_ne_nil 0 bs
  have hlast : (0 :: bs).getLast hne = N := by
    have h := List.getLast?_eq_getLast (0 :: bs) hne
    rw [h] at hl
    exact Option.some.inj hl
  have h1 : gatherFieldCubic geom g xs ys zs (0 :: bs) out i
      = gatherFieldCubicOne geom g (xs i) (ys i) (zs i) := by
    rw [gatherFieldCubic, runChunks_apply _ bs 0 out i hc, hlast,
      if_pos ⟨Nat.zero_le i, hi⟩]
  have h2 : gatherFieldCubic geom g xs ys zs [0, N] out' i
      = gatherFieldCubicOne geom g (xs i) (ys i) (zs i) := by
    rw [gatherFieldCubic, runChunks_apply _ [N] 0 out' i (by
      simp [List.chain'_cons])]
    simp only [List.getLast]
    rw [if_pos ⟨Nat.zero_le i, hi⟩]
  exact ⟨h1, h1.trans h2.symm⟩

/-- C1 witness: a concrete two-chunk partition [0,1,2] of two particles,
compared against the single chunk [0,2]. -/
theorem claim1_chunk_invariance_witness :
    ([0, 1, 2] : List ℕ).head? = some 0 ∧
    ([0, 1, 2] : List ℕ).getLast? = some 2 ∧
    List.Chain' (· ≤ ·) ([0, 1, 2] : List ℕ) ∧ (0 : ℕ) < 2 ∧
    gatherFieldCubic geomWide ebZero (fun _ => 0) (fun _ => 0) (fun _ => 0)
        [0, 1, 2] (fun _ => outZero) 0
      = gatherFieldCubic geomWide ebZero (fun _ => 0) (fun _ => 0) (fun _ => 0)
        [0, 2] (fun _ => outZero) 0 :=
  ⟨rfl, rfl, by simp [List.chain'_cons], by norm_num,
    (claim1_chunk_invariance geomWide ebZero (fun _ => 0) (fun _ => 0)
      (fun _ => 0) [0, 1, 2] 2 (fun _ => outZero) (fun _ => outZero)
      rfl rfl (by simp [List.chain'_cons]) 0 (by norm_num)).2⟩

/-- The real part of the averaging write `(0.5 * (a2_old + F2)).real`. -/
theorem half_blend_re (x : ℝ) (z : ℂ) :
    ((0.5 : ℂ) * ((x : ℂ) + z)).re = 0.5 * (x + z.re) := by
  have h : (0.5 : ℂ) = ((0.5 : ℝ) : ℂ) := by norm_num
  rw [h, Complex.re_ofReal_mul, Complex.add_re, Complex.ofReal_re]

/-- The amplitude slot of one envelope mode iteration, for either value of
the gradient flag. -/
theorem envelopeLinearStep_fst (gradient : Bool) (a gradR gradT gradZ : ℤ → Grid)
    (c s : ℝ) (st : LinStencil) (acc : ℂ × ℂ × ℂ × ℂ) (m : ℤ) :
    (envelopeLinearStep gradient a gradR gradT gradZ c s st acc m).1
      = addLinearEnvelopeGatherForMode m acc.1 (phaseFactor c s m) (a m) st := by
  unfold envelopeLinearStep
  cases gradient <;> simp

/-- The amplitude accumulated by the envelope mode loop is the fold of the
per-mode accumulator over the amplitude grids alone. -/
theorem envFoldLin_fst (gradient : Bool) (a gradR gradT gradZ : ℤ → Grid)
    (c s : ℝ) (st : LinStencil) :
    ∀ (ms : List ℤ) (acc : ℂ × ℂ × ℂ × ℂ),
      (ms.foldl (envelopeLinearStep gradient a gradR gradT gradZ c s st) acc).1
        = ms.foldl
            (fun F m => addLinearEnvelopeGatherForMode m F (phaseFactor c s m) (a m) st)
            acc.1 := by
  intro ms
  induction ms with
  | nil => intro acc; rfl
  | cons m ms ih =>
      intro acc
      rw [List.foldl_cons, List.foldl_cons, ih, envelopeLinearStep_fst]

/-- With the gradient flag set, the envelope mode loop folds all four
running sums componentwise. -/
theorem envFoldLin_true (a gradR gradT gradZ : ℤ → Grid) (c s : ℝ)
    (st : LinStencil) :
    ∀ (ms : List ℤ) (acc : ℂ × ℂ × ℂ × ℂ),
      ms.foldl (envelopeLinearStep true a gradR gradT gradZ c s st) acc
        = (ms.foldl (fun F m =>
              addLinearEnvelopeGatherForMode m F (phaseFactor c s m) (a m) st) acc.1,
           ms.foldl (fun F m =>
              addLinearEnvelopeGatherForMode m F (phaseFactor c s m) (gradR m) st) acc.2.1,
           ms.foldl (fun F m =>
              addLinearEnvelopeGatherForMode m F (phaseFactor c s m) (gradT m) st) acc.2.2.1,
           ms.foldl (fun F m =>
              addLinearEnvelopeGatherForMode m F (phaseFactor c s m) (gradZ m) st) acc.2.2.2) := by
  intro ms
  induction ms with
  | nil => intro acc; rfl
  | cons m ms ih =>
      intro acc
      rw [List.foldl_cons, ih]
      rfl

/-- With the gradient flag cleared, the envelope mode loop leaves the three
gradient slots untouched. -/
theorem envFoldLin_false (a gradR gradT gradZ : ℤ → Grid) (c s : ℝ)
    (st : LinStencil) :
    ∀ (ms : List ℤ) (acc : ℂ × ℂ × ℂ × ℂ),
      (ms.foldl (envelopeLinearStep false a gradR gradT gradZ c s st) acc).2
        = acc.2 := by
  intro ms
  induction ms with
  | nil => intro acc; rfl
  | cons m ms ih =>
      intro acc
      rw [List.foldl_cons, ih]
      rfl

/-- C7: after accumulating the cylindrical components over all modes, each
kernel writes the Cartesian outputs as Fx = cos·Fr − sin·Ft,
Fy = sin·Fr + cos·Ft, with Fz unchanged — for the E field and the B field
of both the linear and the cubic kernel, and for the envelope gradient. -/
theorem claim7_cartesian_conversion :
    (∀ (geom : GridGeom) (g : EBGrids) (xj yj zj : ℝ),
      let c := (cossin xj yj).1
      let s := (cossin xj yj).2
      let st := linearStencilOf geom xj yj zj
      let E := linearVec g.Er0 g.Et0 g.Ez0 g.Er1 g.Et1 g.Ez1 c s st
      let B := linearVec g.Br0 g.Bt0 g.Bz0 g.Br1 g.Bt1 g.Bz1 c s st
      gatherFieldLinearOne geom g xj yj zj =
        { Ex := c * E.1 - s * E.2.1, Ey := s * E.1 + c * E.2.1, Ez := E.2.2,
          Bx := c * B.1 - s * B.2.1, By := s * B.1 + c * B.2.1, Bz := B.2.2 }) ∧
    (∀ (geom : GridGeom) (g : EBGrids) (xj yj zj : ℝ),
      let c := (cossin xj yj).1
      let s := (cossin xj yj).2
      let r_cell := rCell geom (Real.sqrt (xj ^ 2 + yj ^ 2))
      let z_cell := zCell geom zj
      let irl := cubicLowest r_cell
      let izl := cubicLowest z_cell
      let Sr := cubicS (r_cell - (irl : ℝ))
      let Sz := cubicS (z_cell - (izl : ℝ))
      let E := cubicVec g.Er0 g.Et0 g.Ez0 g.Er1 g.Et1 g.Ez1 c s irl izl Sr Sz
        geom.Nr geom.Nz
      let B := cubicVec g.Br0 g.Bt0 g.Bz0 g.Br1 g.Bt1 g.Bz1 c s irl izl Sr Sz
        geom.Nr geom.Nz
      gatherFieldCubicOne geom g xj yj zj =
        { Ex := c * E.1 - s * E.2.1, Ey := s * E.1 + c * E.2.1, Ez := E.2.2,
          Bx := c * B.1 - s * B.2.1, By := s * B.1 + c * B.2.1, Bz := B.2.2 }) ∧
    (∀ (geom : GridGeom) (a gradR gradT gradZ : ℤ → Grid) (ms : List ℤ)
       (xj yj zj a2old gxold gyold gzold : ℝ) (average : Bool),
      let c := (cossin xj yj).1
      let s := (cossin xj yj).2
      let st := linearStencilOf geom xj yj zj
      let F := envAmplitude a c s st ms
      let Fr := envAmplitude gradR c s st ms
      let Ft := envAmplitude gradT c s st ms
      let Fz := envAmplitude gradZ c s st ms
      (gatherEnvelopeLinearOne geom a gradR gradT gradZ ms xj yj zj
          a2old gxold gyold gzold true average).gx
        = 2 * (((c : ℂ) * Fr - (s : ℂ) * Ft) * (starRingEnd ℂ) F).re ∧
      (gatherEnvelopeLinearOne geom a gradR gradT gradZ ms xj yj zj
          a2old gxold gyold gzold true average).gy
        = 2 * (((s : ℂ) * Fr + (c : ℂ) * Ft) * (starRingEnd ℂ) F).re ∧
      (gatherEnvelopeLinearOne geom a gradR gradT gradZ ms xj yj zj
          a2old gxold gyold gzold true average).gz
        = 2 * (Fz * (starRingEnd ℂ) F).re) := by
  refine ⟨fun geom g xj yj zj => rfl, fun geom g xj yj zj => rfl, ?_⟩
  intro geom a gradR gradT gradZ ms xj yj zj a2old gxold gyold gzold average
  dsimp only
  simp only [gatherEnvelopeLinearOne, envAmplitude, envFoldLin_true]
  exact ⟨rfl, rfl, rfl⟩

/-- C9: the envelope kernel's real intensity output is Re(F·conj F)
(blended with the stored value only under the averaging flag, cf. C8), the
gradient-of-intensity outputs are 2·Re(gradient_component · conj F) and are
written only when the gradient flag is requested (otherwise the stored
values are kept), and the per-mode phase factor is (cos − i·sin)^|m|,
conjugated when m < 0. -/
theorem claim9_envelope_intensity :
    (∀ (geom : GridGeom) (a gradR gradT gradZ : ℤ → Grid) (ms : List ℤ)
       (xj yj zj a2old gxold gyold gzold : ℝ) (gradient average : Bool),
      let c := (cossin xj yj).1
      let s := (cossin xj yj).2
      let st := linearStencilOf geom xj yj zj
      let F := envAmplitude a c s st ms
      let Fr := envAmplitude gradR c s st ms
      let Ft := envAmplitude gradT c s st ms
      let Fz := envAmplitude gradZ c s st ms
      let K := gatherEnvelopeLinearOne geom a gradR gradT gradZ ms xj yj zj
        a2old gxold gyold gzold gradient average
      K.a2 = (if average
              then ((0.5 : ℂ) * ((a2old : ℂ) + F * (starRingEnd ℂ) F)).re
              else (F * (starRingEnd ℂ) F).re) ∧
      K.gx = (if gradient
              then 2 * (((c : ℂ) * Fr - (s : ℂ) * Ft) * (starRingEnd ℂ) F).re
              else gxold) ∧
      K.gy = (if gradient
              then 2 * (((s : ℂ) * Fr + (c : ℂ) * Ft) * (starRingEnd ℂ) F).re
              else gyold) ∧
      K.gz = (if gradient then 2 * (Fz * (starRingEnd ℂ) F).re else gzold)) ∧
    (∀ (c s : ℝ) (m : ℤ),
      phaseFactor c s m =
        if m < 0 then (starRingEnd ℂ) (((c : ℂ) - (s : ℂ) * I) ^ m.natAbs)
        else ((c : ℂ) - (s : ℂ) * I) ^ m.natAbs) := by
  refine ⟨?_, fun c s m => rfl⟩
  intro geom a gradR gradT gradZ ms xj yj zj a2old gxold gyold gzold
    gradient average
  dsimp only
  cases gradient
  · simp only [gatherEnvelopeLinearOne, envAmplitude, envFoldLin_fst]
    simp
  · simp only [gatherEnvelopeLinearOne, envAmplitude, envFoldLin_true]
    simp

/-- C10: with both the gradient and the averaging flag set, the three
gradient-of-intensity outputs equal the freshly computed values of an
overwrite-mode call (whatever the pre-existing stored gradients were), and
the 0.5 blend with the stored value is applied only to the intensity — in
both the linear and the cubic envelope kernel. -/
theorem claim10_gradient_never_averaged (geom : GridGeom)
    (a gradR gradT gradZ : ℤ → Grid) (ms : List ℤ)
    (xj yj zj a2old a2old' gxold gyold gzold gxold' gyold' gzold' : ℝ) :
    ((gatherEnvelopeLinearOne geom a gradR gradT gradZ ms xj yj zj
        a2old gxold gyold gzold true true).gx
      = (gatherEnvelopeLinearOne geom a gradR gradT gradZ ms xj yj zj
        a2old' gxold' gyold' gzold' true false).gx ∧
     (gatherEnvelopeLinearOne geom a gradR gradT gradZ ms xj yj zj
        a2old gxold gyold gzold true true).gy
      = (gatherEnvelopeLinearOne geom a gradR gradT gradZ ms xj yj zj
        a2old' gxold' gyold' gzold' true false).gy ∧
     (gatherEnvelopeLinearOne geom a gradR gradT gradZ ms xj yj zj
        a2old gxold gyold gzold true true).gz
      = (gatherEnvelopeLinearOne geom a gradR gradT gradZ ms xj yj zj
        a2old' gxold' gyold' gzold' true false).gz ∧
     (gatherEnvelopeLinearOne geom a gradR gradT gradZ ms xj yj zj
        a2old gxold gyold gzold true true).a2
      = 0.5 * (a2old + (gatherEnvelopeLinearOne geom a gradR gradT gradZ ms
          xj yj zj a2old' gxold' gyold' gzold' true false).a2)) ∧
    ((gatherEnvelopeCubicOne geom a gradR gradT gradZ ms xj yj zj
        a2old gxold gyold gzold true true).gx
      = (gatherEnvelopeCubicOne geom a gradR gradT gradZ ms xj yj zj
        a2old' gxold' gyold' gzold' true false).gx ∧
     (gatherEnvelopeCubicOne geom a gradR gradT gradZ ms xj yj zj
        a2old gxold gyold gzold true true).gy
      = (gatherEnvelopeCubicOne geom a gradR gradT gradZ ms xj yj zj
        a2old' gxold' gyold' gzold' true false).gy ∧
     (gatherEnvelopeCubicOne geom a gradR gradT gradZ ms xj yj zj
        a2old gxold gyold gzold true true).gz
      = (gatherEnvelopeCubicOne geom a gradR gradT gradZ ms xj yj zj
        a2old' gxold' gyold' gzold' true false).gz ∧
     (gatherEnvelopeCubicOne geom a gradR gradT gradZ ms xj yj zj
        a2old gxold gyold gzold true true).a2
      = 0.5 * (a2old + (gatherEnvelopeCubicOne geom a gradR gradT gradZ ms
          xj yj zj a2old' gxold' gyold' gzold' true false).a2)) := by
  refine ⟨⟨rfl, rfl, rfl, ?_⟩, ⟨rfl, rfl, rfl, ?_⟩⟩
  · simp only [gatherEnvelopeLinearOne, if_true]
    exact half_blend_re _ _
  · simp only [gatherEnvelopeCubicOne, if_true]
    exact half_blend_re _ _

/-- C8: the envelope gather's output policy — averaged, the stored
intensity becomes 0.5·(old + new computed intensity); otherwise the new
intensity replaces it — and the concrete scenario: a grid yielding raw
intensity 3, stored intensity preset to 5, gives 4 after one averaged call
and 3.5 after a second identical call. -/
theorem claim8_average_policy :
    (∀ (geom : GridGeom) (a gradR gradT gradZ : ℤ → Grid) (ms : List ℤ)
       (xj yj zj a2old gxold gyold gzold : ℝ) (gradient : Bool),
      (gatherEnvelopeLinearOne geom a gradR gradT gradZ ms xj yj zj
          a2old gxold gyold gzold gradient true).a2
        = 0.5 * (a2old + (gatherEnvelopeLinearOne geom a gradR gradT gradZ ms
            xj yj zj a2old gxold gyold gzold gradient false).a2)) ∧
    (gatherEnvelopeLinearOne geomS aS gzZero gzZero gzZero [0] 0 0 0
        0 0 0 0 false false).a2 = 3 ∧
    (gatherEnvelopeLinearOne geomS aS gzZero gzZero gzZero [0] 0 0 0
        5 0 0 0 false true).a2 = 4 ∧
    (gatherEnvelopeLinearOne geomS aS gzZero gzZero gzZero [0] 0 0 0
        4 0 0 0 false true).a2 = 3.5 := by
  have hpolicy : ∀ (geom : GridGeom) (a gradR gradT gradZ : ℤ → Grid)
      (ms : List ℤ) (xj yj zj a2old gxold gyold gzold : ℝ) (gradient : Bool),
      (gatherEnvelopeLinearOne geom a gradR gradT gradZ ms xj yj zj
          a2old gxold gyold gzold gradient true).a2
        = 0.5 * (a2old + (gatherEnvelopeLinearOne geom a gradR gradT gradZ ms
            xj yj zj a2old gxold gyold gzold gradient false).a2) := by
    intro geom a gradR gradT gradZ ms xj yj zj a2old gxold gyold gzold gradient
    simp only [gatherEnvelopeLinearOne, if_true]
    exact half_blend_re _ _
  have hcs : cossin 0 0 = (1, 0) := by simp [cossin]
  have hr0 : rCell geomS (Real.sqrt ((0 : ℝ) ^ 2 + 0 ^ 2)) = 0 := by
    simp [rCell, geomS]
    norm_num
  have hz0 : zCell geomS 0 = 0 := by
    simp [zCell, geomS]
    norm_num
  have hst : linearStencilOf geomS 0 0 0 =
      { irLower := 0, irUpper := 1, izLower := 0, izUpper := 1,
        SrLower := 1, SrUpper := 0, SzLower := 1, SzUpper := 0,
        SrGuard := 0 } := by
    rw [linearStencilOf, hr0, hz0]
    simp only [linearStencil, linearBC, wrapZ]
    norm_num [geomS]
  have hraw : ∀ (w : ℝ) (avg : Bool),
      (gatherEnvelopeLinearOne geomS aS gzZero gzZero gzZero [0] 0 0 0
          w 0 0 0 false avg).a2
        = if avg then ((0.5 : ℂ) * ((w : ℂ) + ((3 : ℝ) : ℂ))).re
          else (((3 : ℝ) : ℂ)).re := by
    intro w avg
    have hF2 : ((Real.sqrt 3 : ℝ) : ℂ) * (starRingEnd ℂ) ((Real.sqrt 3 : ℝ) : ℂ)
        = ((3 : ℝ) : ℂ) := by
      rw [Complex.conj_ofReal, ← Complex.ofReal_mul,
        Real.mul_self_sqrt (by norm_num)]
    simp only [gatherEnvelopeLinearOne, hcs, hst]
    simp only [List.foldl_cons, List.foldl_nil, envelopeLinearStep,
      addLinearEnvelopeGatherForMode, phaseFactor, aS]
    norm_num [hF2]
  refine ⟨hpolicy, ?_, ?_, ?_⟩
  · rw [hraw 0 false]
    simp
  · rw [hraw 5 true, half_blend_re, Complex.ofReal_re]
    norm_num
  · rw [hraw 4 true, half_blend_re, Complex.ofReal_re]
    norm_num


